import Mathlib

/-!
Verification of the C0llecti0n-Template filter/sort/validation pipeline.

The definitions below are shallow embeddings of the TypeScript/JavaScript
sources of the repository:
  * `src/utils/filters.ts`       — `splitBySlash`, `getAddedYear`, `matchesFilter`, `sortItems`
  * `src/scripts/filter-system.ts` — per-dimension visibility of `FilterSystem.filterItems`
  * `src/utils/security.ts`      — `sanitizeUrl`
  * `admin-server.mjs`           — `ValidationRules`, `validateItem`, `generateId`,
                                   `isAuthenticated`, `handleRequest`

JavaScript strings are modelled as Lean `String` (lists of characters);
JavaScript numbers appearing in the pipeline (ratings, years) are modelled as
`Int`.  `undefined` is modelled with `Option`.
-/

/-- Whitespace test modelling the JavaScript regexp class `\s` and the
whitespace set of `String.prototype.trim` (space, tab, LF, VT, FF, CR). -/
def jsIsWs (c : Char) : Bool :=
  c.toNat = 32 || c.toNat = 9 || c.toNat = 10 || c.toNat = 11 || c.toNat = 12 || c.toNat = 13

/-- JavaScript `||` on an optional string: `undefined` and `""` are falsy and
give the default. -/
def jsOr (v : Option String) (d : String) : String :=
  match v with
  | none => d
  | some s => if s = "" then d else s

/-- JavaScript `||` on an optional number: `undefined` and `0` are falsy and
give the default. -/
def jsOrNum (v : Option Int) (d : Int) : Int :=
  match v with
  | none => d
  | some n => if n = 0 then d else n

/-- `String.prototype.trim`: drop leading and trailing whitespace. -/
def trimList (l : List Char) : List Char :=
  (((l.dropWhile jsIsWs).reverse.dropWhile jsIsWs)).reverse

/-- Does `sub` occur as a leading segment of `l`?  Auxiliary for
`containsSeg`. -/
def leadSeg : List Char → List Char → Bool
  | [], _ => true
  | _ :: _, [] => false
  | a :: as, b :: bs => a == b && leadSeg as bs

/-- `String.prototype.includes`, on character lists: does `sub` occur as a
contiguous segment of `l`? -/
def containsSeg (sub : List Char) : List Char → Bool
  | [] => leadSeg sub []
  | b :: bs => leadSeg sub (b :: bs) || containsSeg sub bs

/-- `itemValue.includes(filterValue)` on strings. -/
def strIncludes (s sub : String) : Bool :=
  containsSeg sub.toList s.toList

/-- Character-by-character splitter modelling `value.split(/\s*\/\s*/)`.
State: `skip` is true while consuming the trailing `\s*` of a separator
match; `acc` holds the reversed committed characters of the current piece;
`pend` holds a reversed run of whitespace that follows `acc` and belongs to
the piece unless a `/` comes next (in which case it is the leading `\s*` of
the separator). -/
def splitSlashAux (skip : Bool) (acc pend : List Char) : List Char → List (List Char)
  | [] => if skip then [[]] else [(pend ++ acc).reverse]
  | c :: cs =>
    if skip then
      if jsIsWs c then splitSlashAux true acc pend cs
      else if c = '/' then [] :: splitSlashAux true acc pend cs
      else splitSlashAux false [c] [] cs
    else
      if jsIsWs c then splitSlashAux false acc (c :: pend) cs
      else if c = '/' then acc.reverse :: splitSlashAux true [] [] cs
      else splitSlashAux false (c :: (pend ++ acc)) [] cs

/-- `value.split(/\s*\/\s*/)` on a character list. -/
def splitSlashCore (l : List Char) : List (List Char) :=
  splitSlashAux false [] [] l

/-- Embedding of `splitBySlash` (src/utils/filters.ts:18-24):
`if (!value) return []; return value.split(/\s*\/\s*/).map(v => v.trim()).filter(Boolean)`. -/
def splitBySlash (value : Option String) : List String :=
  match value with
  | none => []
  | some s =>
    if s = "" then []
    else (((splitSlashCore s.toList).map trimList).filter (fun p => !p.isEmpty)).map List.asString

/-- Embedding of `getAddedYear` (src/utils/filters.ts:11-13):
`(addedDate || "").substring(0, 4)`. -/
def getAddedYear (addedDate : Option String) : String :=
  (((addedDate.getD "").toList).take 4).asString

/-- The `matchMode` field of `FilterMatchOptions`; the source default is
`"contains"`. -/
inductive MatchMode where
  | exact
  | contains
deriving DecidableEq

/-- Embedding of `matchesFilter` (src/utils/filters.ts:62-75).  The three
arguments are the fields of `FilterMatchOptions`; call sites in the repo that
omit `matchMode` pass `.contains`, the source default. -/
def matchesFilter (itemValue : Option String) (filterValue : String)
    (matchMode : MatchMode) : Bool :=
  if filterValue = "all" then true
  else
    match itemValue with
    | none => false
    | some s =>
      if s = "" then false
      else
        match matchMode with
        | .exact => s == filterValue
        | .contains => (splitBySlash (some s)).contains filterValue

/-- Embedding of the per-dimension visibility decision of
`FilterSystem.filterItems` (src/scripts/filter-system.ts:80-99), which is also
the decision compiled into the page script by `generateFilterScript`
(src/utils/filters.ts:204-216): a dimension with filter value `"all"` always
passes; the `"added"` dimension compares `(dataset.addedDate || "").substring(0,4)`
(that is, `getAddedYear`) for equality; every other dimension checks
`itemValue.includes(filterValue)` where `itemValue = dataset[filterType] || ""`. -/
def fsDimensionVisible (filterType : String) (datasetValue : Option String)
    (addedDate : Option String) (filterValue : String) : Bool :=
  if filterValue = "all" then true
  else if filterType = "added" then getAddedYear addedDate == filterValue
  else strIncludes (datasetValue.getD "") filterValue

/-- ASCII lowering of one character, modelling the effect of
`String.prototype.toLowerCase` on the characters the comparator sees (the
JavaScript method is Unicode-aware; only the ASCII range is modelled). -/
def lowerCh (c : Char) : Char :=
  if 65 ≤ c.toNat ∧ c.toNat ≤ 90 then Char.ofNat (c.toNat + 32) else c

/-- `toLowerCase` on a character list. -/
def lowerList (l : List Char) : List Char :=
  l.map lowerCh

/-- Three-way string comparison by character code, modelling
`String.prototype.localeCompare` as code-unit lexicographic comparison
(returning −1/0/1; a locale may order differently, but agrees on equal
strings and on the ASCII data exercised here). -/
def listCmp : List Char → List Char → Int
  | [], [] => 0
  | [], _ :: _ => -1
  | _ :: _, [] => 1
  | a :: as, b :: bs =>
    if a.toNat < b.toNat then -1
    else if b.toNat < a.toNat then 1
    else listCmp as bs

/-- `String.prototype.split` with a one-character separator, on character
lists: `"".split(c)` is `[""]` and every occurrence of `c` separates. -/
def splitCh (c : Char) : List Char → List (List Char)
  | [] => [[]]
  | x :: xs =>
    match splitCh c xs with
    | [] => [[x]]
    | p :: ps => if x = c then [] :: p :: ps else (x :: p) :: ps

/-- The `getters` record of `SortOptions` (src/utils/filters.ts:100-108). -/
structure SortGetters (α : Type) where
  added : α → Option String
  rating : α → Option Int
  year : α → Option Int
  title : α → Option String

/-- The comparator body of `sortItems` (src/utils/filters.ts:122-152): pick
the two values for the sort field with defaults on missing data (`|| "1970-01-01"`,
`|| 0`, `|| ""` with lowercasing for titles), compare strings by
`localeCompare` and numbers by subtraction, and return `0` for an
unrecognized field. -/
def sortKeyCmp {α : Type} (g : SortGetters α) (field : String) (a b : α) : Int :=
  if field = "added" then
    listCmp (jsOr (g.added a) "1970-01-01").toList (jsOr (g.added b) "1970-01-01").toList
  else if field = "rating" then jsOrNum (g.rating a) 0 - jsOrNum (g.rating b) 0
  else if field = "year" then jsOrNum (g.year a) 0 - jsOrNum (g.year b) 0
  else if field = "title" then
    listCmp (lowerList (jsOr (g.title a) "").toList) (lowerList (jsOr (g.title b) "").toList)
  else 0

/-- The effective ordering used by `sortItems`:
`direction === "desc" ? -result : result`, compared against zero (the
host sort orders `a` before `b` when the comparator is non-positive). -/
def sortRel {α : Type} (g : SortGetters α) (field dir : String) (a b : α) : Prop :=
  (if dir = "desc" then -(sortKeyCmp g field a b) else sortKeyCmp g field a b) ≤ 0

instance sortRelDecidable {α : Type} (g : SortGetters α) (field dir : String) :
    DecidableRel (sortRel g field dir) := fun a b =>
  inferInstanceAs
    (Decidable ((if dir = "desc" then -(sortKeyCmp g field a b) else sortKeyCmp g field a b) ≤ 0))

/-- Embedding of `sortItems` (src/utils/filters.ts:113-158):
`const [field, direction] = sortValue.split("-")`, then a copy of the list is
sorted with the comparator `sortKeyCmp`/`sortRel`.  `Array.prototype.sort`
with a consistent comparator is required to be stable, which insertion sort
realises.  (`FilterSystem.sortItems` in src/scripts/filter-system.ts:108-147
is the same comparator reading `data-` attributes.) -/
def sortItems {α : Type} (items : List α) (sortValue : String) (g : SortGetters α) : List α :=
  List.insertionSort
    (sortRel g (((splitCh '-' sortValue.toList).map List.asString).headD "")
      (((splitCh '-' sortValue.toList).map List.asString).getD 1 "")) items

/-- Concrete item records used for witnesses: the four optional fields the
sort accessors read. -/
structure MItem where
  mtitle : Option String
  maddedDate : Option String
  mrating : Option Int
  myear : Option Int
deriving DecidableEq

/-- The accessor record a catalog page passes to `sortItems`. -/
def mGetters : SortGetters MItem :=
  ⟨MItem.maddedDate, MItem.mrating, MItem.myear, MItem.mtitle⟩

/-- Accessors with the comparator's defaults substituted: a missing (or
falsy) added date becomes `"1970-01-01"`, missing rating/year become `0`,
a missing title becomes `""`. -/
def totalGetters {α : Type} (g : SortGetters α) : SortGetters α where
  added := fun a => some (jsOr (g.added a) "1970-01-01")
  rating := fun a => some (jsOrNum (g.rating a) 0)
  year := fun a => some (jsOrNum (g.year a) 0)
  title := fun a => some (jsOr (g.title a) "")

/-- Decimal digit test (`\d` / `[0-9]`). -/
def isDigitCh (c : Char) : Bool :=
  48 ≤ c.toNat && c.toNat ≤ 57

/-- The character of a decimal digit. -/
def digitCh (d : Nat) : Char :=
  match d with
  | 0 => '0' | 1 => '1' | 2 => '2' | 3 => '3' | 4 => '4'
  | 5 => '5' | 6 => '6' | 7 => '7' | 8 => '8' | _ => '9'

/-- Fuelled decimal printer (the fuel `n + 1` always suffices). -/
def natDigitsAux : Nat → Nat → List Char → List Char
  | 0, _, acc => acc
  | fuel + 1, n, acc =>
    if n < 10 then digitCh n :: acc
    else natDigitsAux fuel (n / 10) (digitCh (n % 10) :: acc)

/-- Decimal digits of a natural number, most significant first, modelling the
JavaScript template interpolation of a number. -/
def natDigits (n : Nat) : List Char :=
  natDigitsAux (n + 1) n []

/-- Reference decimal printer used in proofs. -/
def digitsWF (n : Nat) : List Char :=
  if _h : n < 10 then [digitCh n]
  else digitsWF (n / 10) ++ [digitCh (n % 10)]
termination_by n
decreasing_by
  exact Nat.div_lt_self (by omega) (by omega)

/-- `parseInt(_, 10)` on a digit string, accumulator form. -/
def digitsToNatAcc (acc : Nat) : List Char → Nat
  | [] => acc
  | c :: cs => digitsToNatAcc (acc * 10 + (c.toNat - 48)) cs

/-- Strip a literal pattern from the front, returning the remainder. -/
def dropStem : List Char → List Char → Option (List Char)
  | [], cs => some cs
  | _ :: _, [] => none
  | a :: as, b :: bs => if a = b then dropStem as bs else none

/-- Try the regular expression `{pat}(\d+)` at the current position: the
literal pattern followed by a maximal non-empty digit run, whose numeric
value is returned. -/
def matchIdAt (pat cs : List Char) : Option Nat :=
  match dropStem pat cs with
  | none => none
  | some rest =>
    let ds := rest.takeWhile isDigitCh
    if ds.isEmpty then none else some (digitsToNatAcc 0 ds)

/-- `id.match(new RegExp(pat + "-(\\d+)"))` (unanchored: first match scanning
left to right), returning the parsed capture group. -/
def findIdNum (pat : List Char) : List Char → Option Nat
  | [] => matchIdAt pat []
  | c :: cs =>
    match matchIdAt pat (c :: cs) with
    | some n => some n
    | none => findIdNum pat cs

/-- The four data categories of the admin server. -/
inductive CatType where
  | books
  | movies
  | series
  | music
deriving DecidableEq

/-- The id stem per category (admin-server.mjs:240-242); the source's final
`: 'music'` branch is the `music` case. -/
def catStem : CatType → String
  | .books => "book"
  | .movies => "movie"
  | .series => "series"
  | .music => "music"

/-- A JSON value as the admin server sees it.  Numbers are modelled as
integers (the numeric fields validated by the server are whole ratings and
years); `undefined` is `Option.none` at use sites. -/
inductive JVal where
  | jnum (n : Int)
  | jstr (s : String)
  | jbool (b : Bool)
  | jnull
deriving DecidableEq

/-- A JSON object (a JavaScript record), as an association list in key
order. -/
abbrev JObj := List (String × JVal)

/-- JavaScript truthiness of a value. -/
def jvTruthy : JVal → Bool
  | .jnum n => n != 0
  | .jstr s => !(s == "")
  | .jbool b => b
  | .jnull => false

/-- JavaScript truthiness, with `none` for `undefined`. -/
def optTruthy : Option JVal → Bool
  | none => false
  | some v => jvTruthy v

/-- Parse a non-empty all-digit run, else fail. -/
def parseDigitsOpt (l : List Char) : Option Nat :=
  if l = [] then none
  else if l.all isDigitCh then some (digitsToNatAcc 0 l) else none

/-- `Number(string)`: trims whitespace, maps the empty string to `0`, and
accepts optionally signed decimal integer literals; every other string is
`NaN` (`none`).  (Fractional, exponent and radix-prefixed literals are not
modelled; no repository datum uses them.) -/
def jsStrToNum (s : String) : Option Int :=
  let t := trimList s.toList
  if t = [] then some 0
  else
    match t with
    | '-' :: ds => (parseDigitsOpt ds).map (fun n => -(n : Int))
    | '+' :: ds => (parseDigitsOpt ds).map (fun n => (n : Int))
    | ds => (parseDigitsOpt ds).map (fun n => (n : Int))

/-- `Number(value)`; `none` models `NaN`. -/
def jsToNum : JVal → Option Int
  | .jnum n => some n
  | .jstr s => jsStrToNum s
  | .jbool b => some (if b then 1 else 0)
  | .jnull => some 0

/-- `item.id` when it is a string (the only ids the server ever writes). -/
def idString (item : JObj) : Option String :=
  match item.lookup "id" with
  | some (JVal.jstr s) => some s
  | _ => none

/-- The numeric part of an id for a category, per the server's regular
expression. -/
def idNum (t : CatType) (item : JObj) : Option Nat :=
  match idString item with
  | none => none
  | some s => findIdNum ((catStem t).toList ++ ['-']) s.toList

/-- The `reduce` of `generateId` (admin-server.mjs:243-246): the maximum
parsed id number over the collection, starting from `0`. -/
def foldIds (t : CatType) (items : List JObj) (mx : Nat) : Nat :=
  items.foldl (fun mx it =>
    match idNum t it with
    | some m => max mx m
    | none => mx) mx

/-- Embedding of `generateId` (admin-server.mjs:239-248):
`` `${prefix}-${maxId + 1}` ``. -/
def generateId (t : CatType) (items : List JObj) : String :=
  catStem t ++ "-" ++ (natDigits (foldIds t items 0 + 1)).asString

/-- C0-control-or-space test used by the URL parser's initial strip. -/
def isC0OrSpace (c : Char) : Bool :=
  c.toNat ≤ 32

/-- First character of a URL scheme: an ASCII letter. -/
def isSchemeStart (c : Char) : Bool :=
  (65 ≤ c.toNat && c.toNat ≤ 90) || (97 ≤ c.toNat && c.toNat ≤ 122)

/-- Subsequent characters of a URL scheme. -/
def isSchemeChar (c : Char) : Bool :=
  isSchemeStart c || isDigitCh c || c = '+' || c = '-' || c = '.'

/-- The WHATWG input preprocessing of the URL constructor: remove ASCII tab,
LF and CR anywhere; strip leading and trailing C0 controls and spaces. -/
def stripUrlWs (l : List Char) : List Char :=
  let noTabs := l.filter (fun c => !(c.toNat = 9 || c.toNat = 10 || c.toNat = 13))
  ((noTabs.dropWhile isC0OrSpace).reverse.dropWhile isC0OrSpace).reverse

/-- Scan the remainder of a scheme; on the terminating `:` return the
lowercased scheme and the rest of the input. -/
def schemeAux : List Char → List Char → Option (String × List Char)
  | [], _ => none
  | c :: cs, acc =>
    if c = ':' then some ((acc.reverse.map lowerCh).asString, cs)
    else if isSchemeChar c then schemeAux cs (c :: acc)
    else none

/-- Parse a leading `scheme:`. -/
def urlScheme (l : List Char) : Option (String × List Char) :=
  match l with
  | [] => none
  | c :: cs => if isSchemeStart c then schemeAux cs [c] else none

/-- The special schemes that require a non-empty host (`file:` excepted). -/
def specialSchemes : List String :=
  ["http", "https", "ws", "wss", "ftp"]

/-- After the colon of a special scheme: skip slashes, then a non-empty
authority must follow. -/
def hostNonempty (rest : List Char) : Bool :=
  let afterSlashes := rest.dropWhile (fun c => c = '/' || c = '\\')
  let host := afterSlashes.takeWhile (fun c => !(c = '/' || c = '\\' || c = '?' || c = '#'))
  !host.isEmpty

/-- Model of the `new URL(url)` constructor as observed by `sanitizeUrl` and
`ValidationRules.url`: `some protocol` when construction succeeds (the
protocol is the lowercased scheme with a trailing colon), `none` when it
throws.  A valid scheme is required; special schemes other than `file:`
additionally require a non-empty host.  Finer host/path validation is not
modelled. -/
def urlParse (url : String) : Option String :=
  match urlScheme (stripUrlWs url.toList) with
  | none => none
  | some (scheme, rest) =>
    if specialSchemes.contains scheme then
      if hostNonempty rest then some (scheme ++ ":") else none
    else some (scheme ++ ":")

/-- `String.prototype.startsWith`. -/
def strStartsWith (s pre : String) : Bool :=
  leadSeg pre.toList s.toList

/-- Embedding of `sanitizeUrl` (src/utils/security.ts:59-79). -/
def sanitizeUrl (url : Option String) : String :=
  match url with
  | none => ""
  | some u =>
    if u = "" then ""
    else if strStartsWith u "/" then u
    else if strStartsWith u "./" then u
    else if strStartsWith u "../" then u
    else
      match urlParse u with
      | some protocol => if protocol = "http:" ∨ protocol = "https:" then u else ""
      | none => ""

/-- The three relative-path tests of `sanitizeUrl`, combined. -/
def isRelPath (u : String) : Bool :=
  strStartsWith u "/" || strStartsWith u "./" || strStartsWith u "../"

/-- Does `u` parse as an absolute URL with protocol `http:` or `https:`? -/
def isHttpProtocolOk (u : String) : Bool :=
  match urlParse u with
  | some protocol => protocol == "http:" || protocol == "https:"
  | none => false

/-- `ValidationRules.required` (admin-server.mjs:38-43): fails on
`undefined`, `null` and `''`. -/
def vrRequired (value : Option JVal) (fieldName : String) : Option String :=
  if value = none ∨ value = some JVal.jnull ∨ value = some (JVal.jstr "") then
    some (fieldName ++ " is required")
  else none

/-- `ValidationRules.string` (admin-server.mjs:44-49): fails when present,
non-null and not a string. -/
def vrString (value : Option JVal) (fieldName : String) : Option String :=
  match value with
  | none => none
  | some JVal.jnull => none
  | some (JVal.jstr _) => none
  | some _ => some (fieldName ++ " must be a string")

/-- `ValidationRules.number` (admin-server.mjs:50-57): passes on
`undefined`/`null`; otherwise coerces with `Number` and checks the inclusive
bounds that are present. -/
def vrNumber (value : Option JVal) (fieldName : String) (mn mx : Option Int) : Option String :=
  match value with
  | none => none
  | some JVal.jnull => none
  | some v =>
    match jsToNum v with
    | none => some (fieldName ++ " must be a number")
    | some num =>
      let checkMax :=
        match mx with
        | some m => if num > m then some (fieldName ++ " must be at most " ++ toString m)
            else none
        | none => none
      match mn with
      | some m => if num < m then some (fieldName ++ " must be at least " ++ toString m)
          else checkMax
      | none => checkMax

/-- `ValidationRules.url` (admin-server.mjs:58-68): falsy passes, a leading
`/` passes, otherwise `new URL` must succeed.  (On a truthy non-string the
JavaScript code would throw a `TypeError` — `value.startsWith` is not a
function — surfacing as a 500; no schema-conformant payload reaches that
case and no claim depends on it; it is modelled as a rule failure.) -/
def vrUrl (value : Option JVal) (fieldName : String) : Option String :=
  if optTruthy value = false then none
  else
    match value with
    | some (JVal.jstr s) =>
      if strStartsWith s "/" then none
      else if (urlParse s).isSome then none
      else some (fieldName ++ " must be a valid URL or path")
    | _ => some (fieldName ++ " must be a valid URL or path")

/-- Validity of `new Date(value)` for the values the admin UI sends: numbers
and booleans are valid epoch offsets; strings are modelled as valid exactly
for `YYYY-MM-DD` shapes (the only format the repository stores; the wider
formats `Date.parse` accepts are not modelled and no claim depends on
them). -/
def jsDateValid : Option JVal → Bool
  | some (JVal.jnum _) => true
  | some (JVal.jbool _) => true
  | some (JVal.jstr s) =>
    match s.toList with
    | [y1, y2, y3, y4, '-', m1, m2, '-', d1, d2] =>
      isDigitCh y1 && isDigitCh y2 && isDigitCh y3 && isDigitCh y4 &&
      isDigitCh m1 && isDigitCh m2 && isDigitCh d1 && isDigitCh d2 &&
      (10 * (m1.toNat - 48) + (m2.toNat - 48) ≥ 1) &&
      (10 * (m1.toNat - 48) + (m2.toNat - 48) ≤ 12) &&
      (10 * (d1.toNat - 48) + (d2.toNat - 48) ≥ 1) &&
      (10 * (d1.toNat - 48) + (d2.toNat - 48) ≤ 31)
    | _ => false
  | _ => false

/-- `ValidationRules.date` (admin-server.mjs:69-76). -/
def vrDate (value : Option JVal) (fieldName : String) : Option String :=
  if optTruthy value = false then none
  else if jsDateValid value then none
  else some (fieldName ++ " must be a valid date (YYYY-MM-DD)")

/-- `ValidationRules.enum` (admin-server.mjs:77-83): falsy passes; otherwise
the value must be one of the allowed strings (`includes` uses strict
equality, so a non-string truthy value never matches). -/
def vrEnum (value : Option JVal) (fieldName : String) (allowed : List String) : Option String :=
  if optTruthy value = false then none
  else
    match value with
    | some (JVal.jstr s) =>
      if allowed.contains s then none
      else some (fieldName ++ " must be one of: " ++ String.intercalate ", " allowed)
    | _ => some (fieldName ++ " must be one of: " ++ String.intercalate ", " allowed)

/-- The rule kinds of the field schemas. -/
inductive RKind where
  | rstring
  | rnumber
  | rurl
  | rdate
  | renum
deriving DecidableEq

/-- One field schema entry (`{ required?, type, min?, max?, values? }`). -/
structure FieldRule where
  required : Bool
  kind : RKind
  min : Option Int
  max : Option Int
  values : List String
deriving DecidableEq

/-- `{ type: 'string' }`. -/
def strRule : FieldRule := ⟨false, .rstring, none, none, []⟩

/-- `{ required: true, type: 'string' }`. -/
def reqStrRule : FieldRule := ⟨true, .rstring, none, none, []⟩

/-- `{ type: 'number', min, max }`. -/
def numRule (mn mx : Int) : FieldRule := ⟨false, .rnumber, some mn, some mx, []⟩

/-- `{ type: 'url' }`. -/
def urlRule : FieldRule := ⟨false, .rurl, none, none, []⟩

/-- `{ required: true, type: 'url' }`. -/
def reqUrlRule : FieldRule := ⟨true, .rurl, none, none, []⟩

/-- `{ type: 'date' }`. -/
def dateRule : FieldRule := ⟨false, .rdate, none, none, []⟩

/-- `{ type: 'enum', values }`. -/
def enumRule (vs : List String) : FieldRule := ⟨false, .renum, none, none, vs⟩

/-- The `switch (rules.type)` of `validateItem` (admin-server.mjs:178-199),
collecting the (at most one) error of the field's type rule. -/
def fieldTypeErrors (rule : FieldRule) (fieldName : String) (value : Option JVal) : List String :=
  match rule.kind with
  | .rstring => (vrString value fieldName).toList
  | .rnumber => (vrNumber value fieldName rule.min rule.max).toList
  | .rurl => (vrUrl value fieldName).toList
  | .rdate => (vrDate value fieldName).toList
  | .renum => (vrEnum value fieldName rule.values).toList

/-- The per-field loop body of `validateItem` (admin-server.mjs:162-200):
required check first (an error skips the rest), then the falsy-and-optional
skip (`if (!value && !rules.required) continue`), then the type rule. -/
def fieldErrors (rule : FieldRule) (fieldName : String) (value : Option JVal) : List String :=
  if rule.required then
    match vrRequired value fieldName with
    | some e => [e]
    | none => fieldTypeErrors rule fieldName value
  else if optTruthy value = false then []
  else fieldTypeErrors rule fieldName value

/-- `FIELD_SCHEMAS` (admin-server.mjs:87-136), in source field order. -/
def fieldSchema : CatType → List (String × FieldRule)
  | .books =>
    [("title", reqStrRule), ("author", reqStrRule), ("publisher", strRule),
     ("country", strRule), ("year", numRule 1000 2100),
     ("status", enumRule ["reading", "completed", "want-to-read"]),
     ("platform", strRule), ("cover", urlRule), ("addedDate", dateRule),
     ("rating", numRule 1 10), ("notes", strRule)]
  | .movies =>
    [("title", reqStrRule), ("director", strRule), ("country", strRule),
     ("year", numRule 1000 2100),
     ("status", enumRule ["watching", "completed", "want-to-watch"]),
     ("cover", reqUrlRule), ("addedDate", dateRule), ("rating", numRule 1 10),
     ("genre", strRule), ("notes", strRule)]
  | .series =>
    [("title", reqStrRule), ("director", strRule), ("country", strRule),
     ("year", numRule 1000 2100),
     ("status", enumRule ["watching", "completed", "want-to-watch"]),
     ("cover", reqUrlRule), ("addedDate", dateRule), ("rating", numRule 1 10),
     ("genre", strRule), ("notes", strRule)]
  | .music =>
    [("title", reqStrRule), ("artist", reqStrRule), ("cover", reqUrlRule),
     ("year", numRule 1000 2100), ("country", strRule), ("addedDate", dateRule),
     ("rating", numRule 1 10), ("genre", strRule), ("notes", strRule)]

/-- Embedding of `validateItem` (admin-server.mjs:144-206) for a known
category: run every field's rules in schema order and collect all error
messages; `isValid` is emptiness of the error list.  (The unknown-field
check only emits a console warning and is not part of the result.) -/
def validateItem (t : CatType) (data : JObj) : Bool × List String :=
  let errors := ((fieldSchema t).map (fun p => fieldErrors p.2 p.1 (data.lookup p.1))).flatten
  (errors.isEmpty, errors)

/-- `DATA_FILES`/`FIELD_SCHEMAS` keying: the category named by a path
segment. -/
def parseCat (s : String) : Option CatType :=
  if s = "books" then some .books
  else if s = "movies" then some .movies
  else if s = "series" then some .series
  else if s = "music" then some .music
  else none

/-- `validateItem` on a raw type string (admin-server.mjs:145-148): an
unknown data type is invalid with a single error. -/
def validateItemT (typeStr : String) (data : JObj) : Bool × List String :=
  match parseCat typeStr with
  | none => (false, ["Unknown data type: " ++ typeStr])
  | some t => validateItem t data

/-- The four JSON collection files of the admin server. -/
structure Store where
  books : List JObj
  movies : List JObj
  series : List JObj
  music : List JObj
deriving DecidableEq

/-- `readJsonFile` for a known category. -/
def storeGet (st : Store) : CatType → List JObj
  | .books => st.books
  | .movies => st.movies
  | .series => st.series
  | .music => st.music

/-- `writeJsonFile` for a known category. -/
def storeSet (st : Store) : CatType → List JObj → Store
  | .books, l => { st with books := l }
  | .movies, l => { st with movies := l }
  | .series, l => { st with series := l }
  | .music, l => { st with music := l }

/-- JavaScript object-spread assignment of one key: a later key overrides the
value in place, a new key is appended. -/
def setField (obj : JObj) (k : String) (v : JVal) : JObj :=
  if obj.any (fun kv => kv.1 == k) then
    obj.map (fun kv => if kv.1 == k then (k, v) else kv)
  else obj ++ [(k, v)]

/-- The POST branch's new record (admin-server.mjs:332-336):
`{ id: generateId(type, data), ...body, addedDate: body.addedDate || today }`. -/
def mkNewItem (t : CatType) (items : List JObj) (body : JObj) (today : String) : JObj :=
  let base : JObj := [("id", JVal.jstr (generateId t items))]
  let withBody := body.foldl (fun acc kv => setField acc kv.1 kv.2) base
  setField withBody "addedDate"
    (match body.lookup "addedDate" with
     | some v => if jvTruthy v then v else JVal.jstr today
     | none => JVal.jstr today)

/-- The PUT branch's merge (admin-server.mjs:372):
`{ ...data[index], ...body, id: itemId }`. -/
def mergeItem (old : JObj) (body : JObj) (itemId : String) : JObj :=
  setField (body.foldl (fun acc kv => setField acc kv.1 kv.2) old) "id" (JVal.jstr itemId)

/-- Remove the first element satisfying the predicate
(`findIndex` + `splice(index, 1)`); `none` when absent. -/
def removeFirstBy {α : Type} (p : α → Bool) : List α → Option (List α)
  | [] => none
  | x :: xs => if p x then some xs else (removeFirstBy p xs).map (x :: ·)

/-- Replace the first element satisfying the predicate
(`findIndex` + assignment); `none` when absent. -/
def updateFirstBy {α : Type} (p : α → Bool) (f : α → α) : List α → Option (List α)
  | [] => none
  | x :: xs => if p x then some (f x :: xs) else (updateFirstBy p f xs).map (x :: ·)

/-- HTTP methods the server distinguishes. -/
inductive Method where
  | get
  | post
  | put
  | delete
  | options
deriving DecidableEq

/-- `ADMIN_KEY || 'dev-key-change-in-production'` (admin-server.mjs:256). -/
def expectedKey (envKey : Option String) : String :=
  jsOr envKey "dev-key-change-in-production"

/-- Embedding of `isAuthenticated` (admin-server.mjs:251-259): GET is always
allowed; otherwise the `X-Admin-Key` header must strictly equal the
configured key. -/
def isAuthenticated (method : Method) (providedKey envKey : Option String) : Bool :=
  if method = .get then true
  else providedKey == some (expectedKey envKey)

/-- `i.id === itemId` on a record. -/
def itemIdMatches (itemId : String) (it : JObj) : Bool :=
  idString it == some itemId

/-- Embedding of `handleRequest` (admin-server.mjs:262-408) as a function of
the request data and the persisted collections, returning the response
status and the collections after the request.  `path` is
`url.pathname.split('/').filter(Boolean)`; `providedKey` is the
`X-Admin-Key` header; `envKey` is `process.env.ADMIN_KEY`; `today` is the
current date string used for a defaulted `addedDate`.  A thrown error
(unknown data type in `readJsonFile`) is the 500 branch; response bodies are
not modelled. -/
def handleRequest (method : Method) (providedKey envKey : Option String)
    (path : List String) (body : JObj) (today : String) (store : Store) : Nat × Store :=
  if method = .options then (204, store)
  else if isAuthenticated method providedKey envKey = false then (401, store)
  else
    match path with
    | "api" :: typeStr :: rest =>
      let itemId? := rest.head?
      match method with
      | .get =>
        match parseCat typeStr with
        | none => (500, store)
        | some t =>
          match itemId? with
          | some itemId =>
            match (storeGet store t).find? (itemIdMatches itemId) with
            | none => (404, store)
            | some _ => (200, store)
          | none => (200, store)
      | .post =>
        if (validateItemT typeStr body).1 = false then (400, store)
        else
          match parseCat typeStr with
          | none => (500, store)
          | some t =>
            let data := storeGet store t
            (201, storeSet store t (mkNewItem t data body today :: data))
      | .put =>
        match itemId? with
        | some itemId =>
          if (validateItemT typeStr body).1 = false then (400, store)
          else
            match parseCat typeStr with
            | none => (500, store)
            | some t =>
              match updateFirstBy (itemIdMatches itemId)
                  (fun old => mergeItem old body itemId) (storeGet store t) with
              | none => (404, store)
              | some newData => (200, storeSet store t newData)
        | none => (405, store)
      | .delete =>
        match itemId? with
        | some itemId =>
          match parseCat typeStr with
          | none => (500, store)
          | some t =>
            match removeFirstBy (itemIdMatches itemId) (storeGet store t) with
            | none => (404, store)
            | some newData => (200, storeSet store t newData)
        | none => (405, store)
      | .options => (204, store)
    | _ => (404, store)

/-- C1: in the default `"contains"` mode, `matchesFilter` always matches the
sentinel `"all"`; never matches an absent or empty item value otherwise; and
for a non-empty item value matches exactly when the filter value equals one of
the atomic values produced by `splitBySlash`, which maps `undefined`/`""` to
`[]` and splits `"美国 / 英国"` into `["美国", "英国"]`. -/
theorem matchesFilter_contains_spec :
    (∀ iv : Option String, matchesFilter iv "all" .contains = true) ∧
    (∀ fv : String, fv ≠ "all" →
      matchesFilter none fv .contains = false ∧
      matchesFilter (some "") fv .contains = false) ∧
    (∀ (s fv : String), fv ≠ "all" → s ≠ "" →
      (matchesFilter (some s) fv .contains = true ↔ fv ∈ splitBySlash (some s))) ∧
    splitBySlash none = [] ∧ splitBySlash (some "") = [] ∧
    splitBySlash (some "美国 / 英国") = ["美国", "英国"] := by
  refine ⟨?_, ?_, ?_, rfl, by decide, by decide⟩
  · intro iv
    simp [matchesFilter]
  · intro fv hfv
    simp [matchesFilter, hfv]
  · intro s fv hfv hs
    simp [matchesFilter, hfv, hs]

/-- C1 witness: concrete instances of the hypotheses of
`matchesFilter_contains_spec`. -/
theorem matchesFilter_contains_spec_witness :
    matchesFilter none "法国" .contains = false ∧
    (matchesFilter (some "美国 / 英国") "英国" .contains = true ↔
      "英国" ∈ splitBySlash (some "美国 / 英国")) := by
  refine ⟨(matchesFilter_contains_spec.2.1 "法国" (by decide)).1, ?_⟩
  exact matchesFilter_contains_spec.2.2.1 "美国 / 英国" "英国" (by decide) (by decide)

/-- `leadSeg` decides "is a leading segment of". -/
theorem leadSeg_iff (sub : List Char) : ∀ l : List Char,
    leadSeg sub l = true ↔ ∃ v, l = sub ++ v := by
  induction sub with
  | nil => intro l; simp [leadSeg]
  | cons a as ih =>
    intro l
    cases l with
    | nil =>
      simp [leadSeg]
    | cons b bs =>
      simp only [leadSeg, Bool.and_eq_true, beq_iff_eq, ih, List.cons_append,
        List.cons.injEq]
      constructor
      · rintro ⟨rfl, v, rfl⟩
        exact ⟨v, rfl, rfl⟩
      · rintro ⟨v, rfl, rfl⟩
        exact ⟨rfl, v, rfl⟩

/-- `containsSeg` decides "occurs as a contiguous segment of". -/
theorem containsSeg_iff (sub : List Char) : ∀ l : List Char,
    containsSeg sub l = true ↔ ∃ u v, l = u ++ sub ++ v := by
  intro l
  induction l with
  | nil =>
    constructor
    · intro h
      rcases (leadSeg_iff sub []).mp (by simpa [containsSeg] using h) with ⟨v, hv⟩
      have hsub : sub = [] := by
        cases sub with
        | nil => rfl
        | cons a as => simp at hv
      subst hsub
      exact ⟨[], [], by simp⟩
    · rintro ⟨u, v, huv⟩
      rcases List.append_eq_nil.mp huv.symm with ⟨h3, h4⟩
      rcases List.append_eq_nil.mp h3 with ⟨h5, h6⟩
      subst h5; subst h6; subst h4
      rfl
  | cons b bs ih =>
    constructor
    · intro h
      have h' : leadSeg sub (b :: bs) = true ∨ containsSeg sub bs = true := by
        simpa [containsSeg, Bool.or_eq_true] using h
      rcases h' with h1 | h2
      · rcases (leadSeg_iff sub _).mp h1 with ⟨v, hv⟩
        exact ⟨[], v, by simpa using hv⟩
      · rcases ih.mp h2 with ⟨u, v, huv⟩
        exact ⟨b :: u, v, by simp [huv]⟩
    · rintro ⟨u, v, huv⟩
      cases u with
      | nil =>
        have h1 : leadSeg sub (b :: bs) = true :=
          (leadSeg_iff sub _).mpr ⟨v, by simpa using huv⟩
        simp [containsSeg, h1]
      | cons x u' =>
        have hb : b = x ∧ bs = u' ++ sub ++ v := by simpa using huv
        have h2 : containsSeg sub bs = true := ih.mpr ⟨u', v, hb.2⟩
        simp [containsSeg, h2]

/-- Trimming a string yields a contiguous segment of it. -/
theorem trimList_seg (q : List Char) : ∃ u v, q = u ++ trimList q ++ v := by
  refine ⟨q.takeWhile jsIsWs, ((q.dropWhile jsIsWs).reverse.takeWhile jsIsWs).reverse, ?_⟩
  show q = q.takeWhile jsIsWs ++ ((q.dropWhile jsIsWs).reverse.dropWhile jsIsWs).reverse ++
    ((q.dropWhile jsIsWs).reverse.takeWhile jsIsWs).reverse
  calc q = q.takeWhile jsIsWs ++ q.dropWhile jsIsWs :=
        (List.takeWhile_append_dropWhile _ _).symm
  _ = q.takeWhile jsIsWs ++ ((q.dropWhile jsIsWs).reverse).reverse := by
        rw [List.reverse_reverse]
  _ = q.takeWhile jsIsWs ++
        ((q.dropWhile jsIsWs).reverse.takeWhile jsIsWs ++
          (q.dropWhile jsIsWs).reverse.dropWhile jsIsWs).reverse := by
        rw [List.takeWhile_append_dropWhile]
  _ = q.takeWhile jsIsWs ++
        (((q.dropWhile jsIsWs).reverse.dropWhile jsIsWs).reverse ++
          ((q.dropWhile jsIsWs).reverse.takeWhile jsIsWs).reverse) := by
        rw [List.reverse_append]
  _ = q.takeWhile jsIsWs ++ ((q.dropWhile jsIsWs).reverse.dropWhile jsIsWs).reverse ++
        ((q.dropWhile jsIsWs).reverse.takeWhile jsIsWs).reverse := by
        rw [List.append_assoc]

/-- Every piece produced by the slash splitter is a contiguous segment of the
input (in skip mode, of the remaining input). -/
theorem splitSlashAux_seg : ∀ (cs : List Char) (skip : Bool) (acc pend p : List Char),
    p ∈ splitSlashAux skip acc pend cs →
    (if skip then p = [] ∨ ∃ u v, cs = u ++ p ++ v
     else ∃ u v, (pend ++ acc).reverse ++ cs = u ++ p ++ v) := by
  intro cs
  induction cs with
  | nil =>
    intro skip acc pend p hp
    cases skip with
    | true => simp_all [splitSlashAux]
    | false =>
      simp [splitSlashAux] at hp
      subst hp
      exact ⟨[], [], by simp⟩
  | cons c cs' ih =>
    intro skip acc pend p hp
    cases skip with
    | true =>
      simp only [splitSlashAux] at hp
      by_cases hw : jsIsWs c
      · simp only [hw, if_true] at hp
        have := ih true acc pend p hp
        simp only [if_pos rfl] at this
        rcases this with h | ⟨u, v, huv⟩
        · simp [h]
        · exact Or.inr ⟨c :: u, v, by simp [huv]⟩
      · by_cases hc : c = '/'
        · simp only [hw, if_false, hc, if_true] at hp
          rcases List.mem_cons.mp hp with h | hp'
          · simp [h]
          · have := ih true acc pend p hp'
            simp only [if_pos rfl] at this
            rcases this with h | ⟨u, v, huv⟩
            · simp [h]
            · exact Or.inr ⟨c :: u, v, by simp [huv]⟩
        · simp only [hw, if_false, hc] at hp
          have := ih false [c] [] p hp
          simp only [if_neg Bool.false_ne_true] at this
          rcases this with ⟨u, v, huv⟩
          simp only [List.nil_append, List.reverse_singleton, List.singleton_append] at huv
          exact Or.inr ⟨u, v, huv⟩
    | false =>
      simp only [splitSlashAux] at hp
      by_cases hw : jsIsWs c
      · simp only [hw, if_true] at hp
        have := ih false acc (c :: pend) p hp
        simp only [if_neg Bool.false_ne_true] at this
        rcases this with ⟨u, v, huv⟩
        refine ⟨u, v, ?_⟩
        rw [← huv]
        simp [List.append_assoc]
      · by_cases hc : c = '/'
        · simp only [hw, if_false, hc, if_true] at hp
          rcases List.mem_cons.mp hp with h | hp'
          · subst h
            refine ⟨[], pend.reverse ++ c :: cs', ?_⟩
            simp [List.append_assoc]
          · have := ih true [] [] p hp'
            simp only [if_pos rfl] at this
            rcases this with h | ⟨u, v, huv⟩
            · exact ⟨[], (pend ++ acc).reverse ++ c :: cs', by simp [h]⟩
            · exact ⟨(pend ++ acc).reverse ++ c :: u, v, by simp [huv, List.append_assoc]⟩
        · simp only [hw, if_false, hc] at hp
          have := ih false (c :: (pend ++ acc)) [] p hp
          simp only [if_neg Bool.false_ne_true] at this
          rcases this with ⟨u, v, huv⟩
          refine ⟨u, v, ?_⟩
          rw [← huv]
          simp [List.append_assoc]

/-- Every string in `splitBySlash value` occurs as a contiguous segment of the
original string. -/
theorem splitBySlash_seg (s p : String) (hp : p ∈ splitBySlash (some s)) :
    ∃ u v, s.toList = u ++ p.toList ++ v := by
  by_cases hs : s = ""
  · subst hs; simp [splitBySlash] at hp
  · simp only [splitBySlash] at hp
    rw [if_neg hs] at hp
    rcases List.mem_map.mp hp with ⟨pl, hpl, rfl⟩
    rcases List.mem_filter.mp hpl with ⟨hmem, -⟩
    rcases List.mem_map.mp hmem with ⟨q, hq, rfl⟩
    have hq' := splitSlashAux_seg s.toList false [] [] q hq
    simp only [if_neg Bool.false_ne_true, List.append_nil, List.reverse_nil,
      List.nil_append] at hq'
    rcases hq' with ⟨u, v, huv⟩
    rcases trimList_seg q with ⟨u', v', hq2⟩
    refine ⟨u ++ u', v' ++ v, ?_⟩
    have hasl : (List.asString (trimList q)).toList = trimList q := rfl
    rw [hasl, huv]
    conv_lhs => rw [hq2]
    simp [List.append_assoc]

/-- C2 counterexample: the per-dimension decision of `FilterSystem.filterItems`
is substring containment, which differs from `matchesFilter`'s contains mode:
for item value `"美国"` and filter value `"美"` the filter system shows the
item while `matchesFilter` rejects it, so the two decisions are not equal. -/
theorem fsDimension_ne_matchesFilter_cex :
    fsDimensionVisible "country" (some "美国") none "美" = true ∧
    matchesFilter (some "美国") "美" .contains = false := by decide

/-- C2 (amended): for a dimension other than `"added"` and a non-`"all"`
filter value, a `matchesFilter` contains-mode match implies that
`FilterSystem.filterItems` shows the item; the converse fails, because the
filter system tests substring containment rather than equality with a
slash-separated atomic value. -/
theorem fsDimension_superset (ft : String) (iv ad : Option String) (fv : String)
    (hft : ft ≠ "added") (h : matchesFilter iv fv .contains = true) :
    fsDimensionVisible ft iv ad fv = true := by
  by_cases hfv : fv = "all"
  · simp [fsDimensionVisible, hfv]
  · match iv with
    | none => simp [matchesFilter, hfv] at h
    | some s =>
      by_cases hs : s = ""
      · subst hs; simp [matchesFilter, hfv] at h
      · have hmem : fv ∈ splitBySlash (some s) := by
          simpa [matchesFilter, hfv, hs] using h
        rcases splitBySlash_seg s fv hmem with ⟨u, v, huv⟩
        have hinc : containsSeg fv.toList s.toList = true :=
          (containsSeg_iff fv.toList s.toList).mpr ⟨u, v, huv⟩
        simp [fsDimensionVisible, hfv, hft, strIncludes]
        exact hinc

/-- C2 witness: a concrete instance of `fsDimension_superset`. -/
theorem fsDimension_superset_witness :
    fsDimensionVisible "country" (some "美国 / 英国") none "英国" = true :=
  fsDimension_superset "country" (some "美国 / 英国") none "英国" (by decide) (by decide)

/-- C8: for the `"added"` dimension and a non-`"all"` filter value, the filter
system shows an item exactly when the leading four characters of its stored
added-date string equal the filter value; the comparison value is
`getAddedYear`, the four-character truncation of the date. -/
theorem addedDimension_spec (dv : Option String) (d fv : String) (hfv : fv ≠ "all") :
    (fsDimensionVisible "added" dv (some d) fv = true ↔ (d.toList.take 4).asString = fv) ∧
    getAddedYear (some d) = (d.toList.take 4).asString := by
  constructor
  · simp [fsDimensionVisible, hfv, getAddedYear]
  · rfl

/-- C8 witness: an item with added date `"2023-05-01"` matches filter value
`"2023"` and not `"2024"`. -/
theorem addedDimension_spec_witness :
    fsDimensionVisible "added" none (some "2023-05-01") "2023" = true ∧
    fsDimensionVisible "added" none (some "2023-05-01") "2024" = false := by
  refine ⟨((addedDimension_spec none "2023-05-01" "2023" (by decide)).1).mpr (by decide),
    by decide⟩

/-- `Char.toNat` is injective. -/
theorem char_toNat_inj {a b : Char} (h : a.toNat = b.toNat) : a = b := by
  have h2 := congrArg Char.ofNat h
  rwa [Char.ofNat_toNat, Char.ofNat_toNat] at h2

/-- Swapping the arguments of `listCmp` negates it. -/
theorem listCmp_swap : ∀ x y : List Char, listCmp x y = -(listCmp y x) := by
  intro x
  induction x with
  | nil => intro y; cases y <;> simp [listCmp]
  | cons a as ih =>
    intro y
    cases y with
    | nil => simp [listCmp]
    | cons b bs =>
      simp only [listCmp]
      rcases Nat.lt_trichotomy a.toNat b.toNat with h | h | h
      · rw [if_pos h, if_neg (by omega), if_pos h]
      · rw [if_neg (by omega), if_neg (by omega), if_neg (by omega), if_neg (by omega), ih bs]
      · rw [if_neg (by omega), if_pos h, if_pos h]
        rfl

/-- `listCmp` is transitive in the non-positive direction. -/
theorem listCmp_trans : ∀ x y z : List Char,
    listCmp x y ≤ 0 → listCmp y z ≤ 0 → listCmp x z ≤ 0 := by
  intro x
  induction x with
  | nil =>
    intro y z _ _
    cases z <;> simp [listCmp]
  | cons a as ih =>
    intro y z h1 h2
    cases y with
    | nil => exact absurd h1 (by simp [listCmp])
    | cons b bs =>
      cases z with
      | nil => exact absurd h2 (by simp [listCmp])
      | cons c cs =>
        simp only [listCmp] at h1 h2 ⊢
        split_ifs at h1 h2 ⊢ <;> first | omega | exact ih bs cs h1 h2

/-- `listCmp` is zero only on equal lists. -/
theorem listCmp_eq_zero : ∀ x y : List Char, listCmp x y = 0 → x = y := by
  intro x
  induction x with
  | nil => intro y h; cases y with
    | nil => rfl
    | cons b bs => simp [listCmp] at h
  | cons a as ih =>
    intro y h
    cases y with
    | nil => simp [listCmp] at h
    | cons b bs =>
      simp only [listCmp] at h
      split_ifs at h with h1 h2
      · omega
      · have hab : a = b := char_toNat_inj (by omega)
        rw [hab, ih bs h]

/-- Inserting under an everywhere-true relation prepends. -/
theorem orderedInsert_rel_true {α : Type} (r : α → α → Prop) [DecidableRel r]
    (hr : ∀ a b, r a b) (x : α) : ∀ l : List α, List.orderedInsert r x l = x :: l := by
  intro l
  cases l with
  | nil => rfl
  | cons y ys => simp [List.orderedInsert, hr x y]

/-- Sorting under an everywhere-true relation is the identity (the
comparator reports "already in order" for every pair, and the sort is
stable). -/
theorem insertionSort_rel_true {α : Type} (r : α → α → Prop) [DecidableRel r]
    (hr : ∀ a b, r a b) : ∀ l : List α, List.insertionSort r l = l := by
  intro l
  induction l with
  | nil => rfl
  | cons x xs ih => simp [List.insertionSort, ih, orderedInsert_rel_true r hr]

/-- C6: a sort key whose field component is not one of
`added`/`rating`/`year`/`title` leaves the list in its original order: the
comparator's `default` branch returns `0` for every pair, so the stable sort
moves nothing. -/
theorem sortItems_unknown_field {α : Type} (sortValue : String) (g : SortGetters α)
    (l : List α)
    (h : ((splitCh '-' sortValue.toList).map List.asString).headD "" ∉
      (["added", "rating", "year", "title"] : List String)) :
    sortItems l sortValue g = l := by
  simp only [List.mem_cons, not_or] at h
  apply insertionSort_rel_true
  intro a b
  unfold sortRel
  have hcmp : sortKeyCmp g (((splitCh '-' sortValue.toList).map List.asString).headD "") a b = 0 := by
    unfold sortKeyCmp
    rw [if_neg h.1, if_neg h.2.1, if_neg h.2.2.1, if_neg h.2.2.2.1]
  rw [hcmp]
  split <;> simp

/-- C6 witness: sorting two concrete items by the malformed key `"foo-desc"`
returns them unchanged. -/
theorem sortItems_unknown_field_witness :
    sortItems [MItem.mk (some "B") none none none, MItem.mk (some "A") none none none]
      "foo-desc" mGetters =
      [MItem.mk (some "B") none none none, MItem.mk (some "A") none none none] :=
  sortItems_unknown_field "foo-desc" mGetters _ (by decide)

/-- Defaulting twice is defaulting once (strings). -/
theorem jsOr_idem (v : Option String) (d : String) : jsOr (some (jsOr v d)) d = jsOr v d := by
  cases v with
  | none =>
    by_cases hd : d = "" <;> simp [jsOr, hd]
  | some s =>
    by_cases hs : s = ""
    · subst hs
      by_cases hd : d = "" <;> simp [jsOr, hd]
    · simp [jsOr, hs]

/-- Defaulting twice is defaulting once (numbers). -/
theorem jsOrNum_idem (v : Option Int) (d : Int) :
    jsOrNum (some (jsOrNum v d)) d = jsOrNum v d := by
  cases v with
  | none =>
    by_cases hd : d = 0 <;> simp [jsOrNum, hd]
  | some n =>
    by_cases hn : n = 0
    · subst hn
      by_cases hd : d = 0 <;> simp [jsOrNum, hd]
    · simp [jsOrNum, hn]

/-- The comparator does not distinguish the raw accessors from the
default-substituted ones. -/
theorem sortKeyCmp_totalGetters {α : Type} (g : SortGetters α) (field : String) (a b : α) :
    sortKeyCmp (totalGetters g) field a b = sortKeyCmp g field a b := by
  unfold sortKeyCmp totalGetters
  split_ifs <;> simp [jsOr_idem, jsOrNum_idem]

/-- `orderedInsert` only inspects the relation pointwise. -/
theorem orderedInsert_congr {α : Type} (r r' : α → α → Prop) [DecidableRel r] [DecidableRel r']
    (h : ∀ a b, r a b ↔ r' a b) (x : α) :
    ∀ l : List α, List.orderedInsert r x l = List.orderedInsert r' x l := by
  intro l
  induction l with
  | nil => rfl
  | cons y ys ih =>
    simp only [List.orderedInsert]
    by_cases hxy : r x y
    · rw [if_pos hxy, if_pos ((h x y).mp hxy)]
    · rw [if_neg hxy, if_neg (fun h' => hxy ((h x y).mpr h')), ih]

/-- `insertionSort` only inspects the relation pointwise. -/
theorem insertionSort_congr {α : Type} (r r' : α → α → Prop) [DecidableRel r] [DecidableRel r']
    (h : ∀ a b, r a b ↔ r' a b) :
    ∀ l : List α, List.insertionSort r l = List.insertionSort r' l := by
  intro l
  induction l with
  | nil => rfl
  | cons x xs ih =>
    simp only [List.insertionSort]
    rw [ih, orderedInsert_congr r r' h]

/-- Inserting an element that compares strictly after everything appends it. -/
theorem orderedInsert_all_not {α : Type} (r : α → α → Prop) [DecidableRel r] (x : α) :
    ∀ l : List α, (∀ y ∈ l, ¬ r x y) → List.orderedInsert r x l = l ++ [x] := by
  intro l
  induction l with
  | nil => intro _; rfl
  | cons y ys ih =>
    intro hl
    simp only [List.orderedInsert]
    rw [if_neg (hl y (List.mem_cons_self y ys)), ih (fun z hz => hl z (List.mem_cons_of_mem y hz))]
    rfl

/-- Inserting an element related to a trailing maximum keeps the maximum at
the end. -/
theorem orderedInsert_append_one {α : Type} (r : α → α → Prop) [DecidableRel r]
    (a x : α) (hax : r a x) :
    ∀ s : List α, List.orderedInsert r a (s ++ [x]) = List.orderedInsert r a s ++ [x] := by
  intro s
  induction s with
  | nil => simp [List.orderedInsert, hax]
  | cons z zs ih =>
    show List.orderedInsert r a (z :: (zs ++ [x])) = List.orderedInsert r a (z :: zs) ++ [x]
    simp only [List.orderedInsert]
    by_cases h : r a z
    · rw [if_pos h, if_pos h]
      rfl
    · rw [if_neg h, if_neg h, ih]
      rfl

/-- A strictly maximal element ends up last, wherever it started. -/
theorem insertionSort_append_last {α : Type} (r : α → α → Prop) [DecidableRel r] (x : α) :
    ∀ l₁ l₂ : List α, (∀ y ∈ l₁ ++ l₂, ¬ r x y ∧ r y x) →
    List.insertionSort r (l₁ ++ x :: l₂) = List.insertionSort r (l₁ ++ l₂) ++ [x] := by
  intro l₁
  induction l₁ with
  | nil =>
    intro l₂ h
    simp only [List.nil_append, List.insertionSort]
    apply orderedInsert_all_not
    intro y hy
    exact (h y ((List.perm_insertionSort r l₂).mem_iff.mp hy)).1
  | cons a l₁' ih =>
    intro l₂ h
    show List.orderedInsert r a (List.insertionSort r (l₁' ++ x :: l₂)) =
      List.orderedInsert r a (List.insertionSort r (l₁' ++ l₂)) ++ [x]
    rw [ih l₂ (fun y hy => h y (List.mem_cons_of_mem a hy)),
      orderedInsert_append_one r a x (h a (List.mem_cons_self _ _)).2]

/-- C7: the comparator of `sortItems` substitutes defaults for missing data —
`"1970-01-01"` for a missing added date, `0` for missing rating or year, `""`
for a missing title — so sorting with partial accessors equals sorting with
the default-substituted total accessors; consequently, under the `"added-desc"`
default sort an item without an added date is placed after every item whose
added date is (strictly) later than `"1970-01-01"`, i.e. last. -/
theorem sortItems_defaults :
    (∀ (α : Type) (l : List α) (sv : String) (g : SortGetters α),
      sortItems l sv (totalGetters g) = sortItems l sv g) ∧
    (∀ (α : Type) (g : SortGetters α) (l₁ l₂ : List α) (x : α),
      g.added x = none →
      (∀ y ∈ l₁ ++ l₂, ∃ d, g.added y = some d ∧
        listCmp ("1970-01-01".toList) d.toList < 0) →
      sortItems (l₁ ++ x :: l₂) "added-desc" g =
        sortItems (l₁ ++ l₂) "added-desc" g ++ [x]) := by
  constructor
  · intro α l sv g
    apply insertionSort_congr
    intro a b
    unfold sortRel
    rw [sortKeyCmp_totalGetters]
  · intro α g l₁ l₂ x hx hall
    have e1 : ∀ m : List α, sortItems m "added-desc" g =
        List.insertionSort (sortRel g "added" "desc") m := fun m => rfl
    rw [e1, e1]
    apply insertionSort_append_last
    intro y hy
    rcases hall y hy with ⟨d, hyd, hlt⟩
    have hd : d ≠ "" := by
      intro h0
      subst h0
      exact absurd hlt (by decide)
    have hkx : jsOr (g.added x) "1970-01-01" = "1970-01-01" := by rw [hx]; rfl
    have hky : jsOr (g.added y) "1970-01-01" = d := by
      rw [hyd]
      simp [jsOr, hd]
    have hswap := listCmp_swap ("1970-01-01".toList) d.toList
    constructor
    · show ¬ (-(sortKeyCmp g "added" x y) ≤ 0)
      have e2 : sortKeyCmp g "added" x y =
          listCmp (jsOr (g.added x) "1970-01-01").toList
            (jsOr (g.added y) "1970-01-01").toList := rfl
      rw [e2, hkx, hky]
      omega
    · show -(sortKeyCmp g "added" y x) ≤ 0
      have e2 : sortKeyCmp g "added" y x =
          listCmp (jsOr (g.added y) "1970-01-01").toList
            (jsOr (g.added x) "1970-01-01").toList := rfl
      rw [e2, hkx, hky]
      omega

/-- C7 witness: with one dated and one undated item, the undated item is
sorted last under `"added-desc"`, and default substitution is the identity on
the result. -/
theorem sortItems_defaults_witness :
    sortItems [MItem.mk (some "B") (some "2023-05-01") none none,
        MItem.mk (some "A") none none none] "added-desc" mGetters =
      sortItems [MItem.mk (some "B") (some "2023-05-01") none none] "added-desc" mGetters ++
        [MItem.mk (some "A") none none none] ∧
    sortItems [MItem.mk (some "B") (some "2023-05-01") none none] "added-desc"
        (totalGetters mGetters) =
      sortItems [MItem.mk (some "B") (some "2023-05-01") none none] "added-desc" mGetters := by
  constructor
  · exact sortItems_defaults.2 MItem mGetters
      [MItem.mk (some "B") (some "2023-05-01") none none] []
      (MItem.mk (some "A") none none none) rfl
      (by
        intro y hy
        simp only [List.append_nil, List.mem_singleton] at hy
        subst hy
        exact ⟨"2023-05-01", rfl, by decide⟩)
  · exact sortItems_defaults.1 MItem
      [MItem.mk (some "B") (some "2023-05-01") none none] "added-desc" mGetters

/-- Two permuted lists that are both strictly sorted by an asymmetric
relation are equal. -/
theorem eq_of_perm_of_asymm {α : Type} {r : α → α → Prop}
    (hasym : ∀ a b, r a b → ¬ r b a) :
    ∀ (l₁ l₂ : List α), List.Perm l₁ l₂ → l₁.Pairwise r → l₂.Pairwise r → l₁ = l₂ := by
  intro l₁
  induction l₁ with
  | nil =>
    intro l₂ p _ _
    exact (p.symm.eq_nil).symm
  | cons a t ih =>
    intro l₂ p h₁ h₂
    cases l₂ with
    | nil => exact absurd p.eq_nil (by simp)
    | cons b t₂ =>
      rcases List.pairwise_cons.mp h₁ with ⟨ha, ht⟩
      rcases List.pairwise_cons.mp h₂ with ⟨hb, ht₂⟩
      by_cases hab : a = b
      · subst hab
        rw [ih t₂ p.cons_inv ht ht₂]
      · have haIn : a ∈ b :: t₂ := p.mem_iff.mp (List.mem_cons_self a t)
        have hbIn : b ∈ a :: t := p.symm.mem_iff.mp (List.mem_cons_self b t₂)
        have h1 : r b a := by
          rcases List.mem_cons.mp haIn with h | h
          · exact absurd h hab
          · exact hb a h
        have h2 : r a b := by
          rcases List.mem_cons.mp hbIn with h | h
          · exact absurd h.symm hab
          · exact ha b h
        exact absurd h1 (hasym a b h2)

/-- Sorting with the flipped relation reverses the sorted order, provided the
relation is total, transitive, and has no ties on the list's elements. -/
theorem insertionSort_flip_reverse {α : Type} (r r' : α → α → Prop)
    [DecidableRel r] [DecidableRel r']
    (hconn : ∀ a b, r' a b ↔ r b a)
    (htot : ∀ a b, r a b ∨ r b a)
    (htrans : ∀ a b c, r a b → r b c → r a c)
    (l : List α) (hne : l.Pairwise (fun a b => ¬(r a b ∧ r b a))) :
    List.insertionSort r' l = (List.insertionSort r l).reverse := by
  haveI : IsTotal α r := ⟨htot⟩
  haveI : IsTrans α r := ⟨htrans⟩
  haveI : IsTotal α r' := ⟨fun a b => (htot b a).imp (hconn a b).mpr (hconn b a).mpr⟩
  haveI : IsTrans α r' := ⟨fun a b c hab hbc =>
    (hconn a c).mpr (htrans c b a ((hconn b c).mp hbc) ((hconn a b).mp hab))⟩
  have h₁ : (List.insertionSort r l).Pairwise r := List.sorted_insertionSort r l
  have h₂ : (List.insertionSort r' l).Pairwise r' := List.sorted_insertionSort r' l
  have hnesymm : ∀ {x y : α}, ¬(r x y ∧ r y x) → ¬(r y x ∧ r x y) :=
    fun h hc => h ⟨hc.2, hc.1⟩
  have hne₁ : (List.insertionSort r l).Pairwise (fun a b => ¬(r a b ∧ r b a)) :=
    ((List.perm_insertionSort r l).pairwise_iff hnesymm).mpr hne
  have hne₂ : (List.insertionSort r' l).Pairwise (fun a b => ¬(r a b ∧ r b a)) :=
    ((List.perm_insertionSort r' l).pairwise_iff hnesymm).mpr hne
  have strict₁ : (List.insertionSort r l).Pairwise (fun a b => r a b ∧ ¬ r b a) :=
    List.Pairwise.imp₂ (fun a b hr hn => ⟨hr, fun h' => hn ⟨hr, h'⟩⟩) h₁ hne₁
  have strict₂ : (List.insertionSort r' l).Pairwise (fun a b => r b a ∧ ¬ r a b) :=
    List.Pairwise.imp₂
      (fun a b hr hn => ⟨(hconn a b).mp hr, fun h' => hn ⟨h', (hconn a b).mp hr⟩⟩) h₂ hne₂
  have strictRev : (List.insertionSort r' l).reverse.Pairwise (fun a b => r a b ∧ ¬ r b a) :=
    List.pairwise_reverse.mpr strict₂
  have hperm : List.Perm (List.insertionSort r' l).reverse (List.insertionSort r l) :=
    ((List.insertionSort r' l).reverse_perm.trans (List.perm_insertionSort r' l)).trans
      (List.perm_insertionSort r l).symm
  have heq := eq_of_perm_of_asymm
    (r := fun a b => r a b ∧ ¬ r b a)
    (fun a b h hc => h.2 hc.1)
    ((List.insertionSort r' l).reverse) (List.insertionSort r l) hperm strictRev strict₁
  calc List.insertionSort r' l = (List.insertionSort r' l).reverse.reverse := by
        rw [List.reverse_reverse]
  _ = (List.insertionSort r l).reverse := by rw [heq]

/-- C9 counterexample: two items with distinct titles `"A"` and `"a"` —
distinct strings, but equal after the comparator's lowercasing — are left in
stable original order by both `"title-asc"` and `"title-desc"`, so the
descending order is not the reverse of the ascending one. -/
theorem sortItems_title_case_cex :
    (some "A" : Option String) ≠ some "a" ∧
    sortItems [MItem.mk (some "A") none none none, MItem.mk (some "a") none none none]
        "title-desc" mGetters ≠
      (sortItems [MItem.mk (some "A") none none none, MItem.mk (some "a") none none none]
        "title-asc" mGetters).reverse := by decide

/-- C9 (amended): for a list of items whose titles are pairwise distinct
after the comparator's case-folding (lowercasing), sorting by `"title-desc"`
yields exactly the reverse of sorting by `"title-asc"`. -/
theorem sortItems_title_desc_reverse {α : Type} (g : SortGetters α) (l : List α)
    (hne : l.Pairwise (fun a b =>
      lowerList (jsOr (g.title a) "").toList ≠ lowerList (jsOr (g.title b) "").toList)) :
    sortItems l "title-desc" g = (sortItems l "title-asc" g).reverse := by
  have e1 : sortItems l "title-desc" g =
      List.insertionSort (sortRel g "title" "desc") l := rfl
  have e2 : sortItems l "title-asc" g =
      List.insertionSort (sortRel g "title" "asc") l := rfl
  have ecmp : ∀ a b, sortKeyCmp g "title" a b =
      listCmp (lowerList (jsOr (g.title a) "").toList)
        (lowerList (jsOr (g.title b) "").toList) := fun a b => rfl
  rw [e1, e2]
  apply insertionSort_flip_reverse (sortRel g "title" "asc") (sortRel g "title" "desc")
  · intro a b
    show (-(sortKeyCmp g "title" a b) ≤ 0) ↔ (sortKeyCmp g "title" b a ≤ 0)
    rw [ecmp a b, ecmp b a,
      listCmp_swap (lowerList (jsOr (g.title b) "").toList)
        (lowerList (jsOr (g.title a) "").toList)]
  · intro a b
    show (sortKeyCmp g "title" a b ≤ 0) ∨ (sortKeyCmp g "title" b a ≤ 0)
    rw [ecmp a b, ecmp b a]
    have hsw := listCmp_swap (lowerList (jsOr (g.title a) "").toList)
      (lowerList (jsOr (g.title b) "").toList)
    omega
  · intro a b c
    show (sortKeyCmp g "title" a b ≤ 0) → (sortKeyCmp g "title" b c ≤ 0) →
      (sortKeyCmp g "title" a c ≤ 0)
    rw [ecmp a b, ecmp b c, ecmp a c]
    exact listCmp_trans _ _ _
  · refine hne.imp ?_
    intro a b hab hcon
    have h1 : sortKeyCmp g "title" a b ≤ 0 := hcon.1
    have h2 : sortKeyCmp g "title" b a ≤ 0 := hcon.2
    rw [ecmp a b] at h1
    rw [ecmp b a] at h2
    have hsw := listCmp_swap (lowerList (jsOr (g.title a) "").toList)
      (lowerList (jsOr (g.title b) "").toList)
    have hz : listCmp (lowerList (jsOr (g.title a) "").toList)
        (lowerList (jsOr (g.title b) "").toList) = 0 := by omega
    exact hab (listCmp_eq_zero _ _ hz)

/-- C9 witness: a concrete list with distinct lowercased titles, where
descending is the reverse of ascending. -/
theorem sortItems_title_desc_reverse_witness :
    sortItems [MItem.mk (some "b") none none none, MItem.mk (some "A") none none none]
        "title-desc" mGetters =
      (sortItems [MItem.mk (some "b") none none none, MItem.mk (some "A") none none none]
        "title-asc" mGetters).reverse :=
  sortItems_title_desc_reverse mGetters
    [MItem.mk (some "b") none none none, MItem.mk (some "A") none none none] (by decide)

/-- The character of a digit below ten has the expected code. -/
theorem digitCh_toNat (d : Nat) (h : d < 10) : (digitCh d).toNat = 48 + d := by
  interval_cases d <;> rfl

/-- Every natural number is below `10 ^ (n + 1)`. -/
theorem nat_lt_ten_pow (n : Nat) : n < 10 ^ (n + 1) := by
  induction n with
  | zero => decide
  | succ k ih =>
    have h1 : 10 ^ (k + 2) = 10 ^ (k + 1) * 10 := by rw [pow_succ]
    omega

/-- With sufficient fuel the fuelled printer agrees with the reference
printer. -/
theorem natDigitsAux_eq : ∀ (fuel n : Nat) (acc : List Char), n < 10 ^ (fuel + 1) →
    natDigitsAux (fuel + 1) n acc = digitsWF n ++ acc := by
  intro fuel
  induction fuel with
  | zero =>
    intro n acc h
    have hn : n < 10 := by simpa using h
    simp [natDigitsAux, digitsWF, hn]
  | succ f ih =>
    intro n acc h
    by_cases hn : n < 10
    · simp [natDigitsAux, digitsWF, hn]
    · have h1 : 10 ^ (f + 1 + 1) = 10 ^ (f + 1) * 10 := by rw [pow_succ]
      have hdiv : n / 10 < 10 ^ (f + 1) := by omega
      rw [show natDigitsAux (f + 1 + 1) n acc =
          natDigitsAux (f + 1) (n / 10) (digitCh (n % 10) :: acc) from by
            simp [natDigitsAux, hn]]
      rw [ih (n / 10) (digitCh (n % 10) :: acc) hdiv]
      conv_rhs => rw [digitsWF]
      rw [dif_neg hn]
      simp [List.append_assoc]

/-- The printer used by `generateId` agrees with the reference printer. -/
theorem natDigits_eq (n : Nat) : natDigits n = digitsWF n := by
  unfold natDigits
  rw [natDigitsAux_eq n n [] (nat_lt_ten_pow n), List.append_nil]

/-- Parsing distributes over appending digit runs. -/
theorem digitsToNatAcc_append : ∀ (l₁ l₂ : List Char) (acc : Nat),
    digitsToNatAcc acc (l₁ ++ l₂) = digitsToNatAcc (digitsToNatAcc acc l₁) l₂ := by
  intro l₁
  induction l₁ with
  | nil => intro l₂ acc; rfl
  | cons c cs ih =>
    intro l₂ acc
    show digitsToNatAcc (acc * 10 + (c.toNat - 48)) (cs ++ l₂) =
      digitsToNatAcc (digitsToNatAcc acc (c :: cs)) l₂
    rw [ih]
    rfl

/-- Parsing the printed digits recovers the number. -/
theorem digitsWF_parse : ∀ (n : Nat), ∀ acc : Nat,
    digitsToNatAcc acc (digitsWF n) = acc * 10 ^ (digitsWF n).length + n := by
  intro n
  induction n using Nat.strong_induction_on with
  | _ n ih =>
    intro acc
    by_cases h : n < 10
    · rw [digitsWF, dif_pos h]
      show digitsToNatAcc (acc * 10 + ((digitCh n).toNat - 48)) [] =
        acc * 10 ^ ([digitCh n].length) + n
      rw [digitCh_toNat n h]
      show acc * 10 + (48 + n - 48) = acc * 10 ^ 1 + n
      rw [pow_one]
      omega
    · have hlt : n / 10 < n := Nat.div_lt_self (by omega) (by omega)
      have h10 : n % 10 < 10 := Nat.mod_lt _ (by omega)
      rw [digitsWF, dif_neg h, digitsToNatAcc_append, ih (n / 10) hlt acc]
      rw [List.length_append, List.length_singleton, pow_succ, ← mul_assoc]
      show digitsToNatAcc ((acc * 10 ^ (digitsWF (n / 10)).length + n / 10) * 10 +
        ((digitCh (n % 10)).toNat - 48)) [] = acc * 10 ^ (digitsWF (n / 10)).length * 10 + n
      rw [digitCh_toNat _ h10]
      show (acc * 10 ^ (digitsWF (n / 10)).length + n / 10) * 10 + (48 + n % 10 - 48) =
        acc * 10 ^ (digitsWF (n / 10)).length * 10 + n
      omega

/-- Round trip: `parseInt` of the printed number. -/
theorem natDigits_parse (n : Nat) : digitsToNatAcc 0 (natDigits n) = n := by
  rw [natDigits_eq, digitsWF_parse n 0]
  simp

/-- Printed digits are digits. -/
theorem digitsWF_all_digits : ∀ (n : Nat), ∀ c ∈ digitsWF n, isDigitCh c = true := by
  intro n
  induction n using Nat.strong_induction_on with
  | _ n ih =>
    intro c hc
    by_cases h : n < 10
    · rw [digitsWF, dif_pos h] at hc
      simp only [List.mem_singleton] at hc
      subst hc
      simp [isDigitCh, digitCh_toNat n h]
      omega
    · rw [digitsWF, dif_neg h] at hc
      rcases List.mem_append.mp hc with h1 | h2
      · exact ih (n / 10) (Nat.div_lt_self (by omega) (by omega)) c h1
      · simp only [List.mem_singleton] at h2
        subst h2
        have h10 : n % 10 < 10 := Nat.mod_lt _ (by omega)
        simp [isDigitCh, digitCh_toNat _ h10]
        omega

/-- The printed digit list is never empty. -/
theorem digitsWF_ne_nil (n : Nat) : digitsWF n ≠ [] := by
  rw [digitsWF]
  split <;> simp

/-- `takeWhile` of a list all of whose elements satisfy the predicate. -/
theorem takeWhile_all {α : Type} (p : α → Bool) : ∀ l : List α,
    (∀ c ∈ l, p c = true) → l.takeWhile p = l := by
  intro l
  induction l with
  | nil => intro _; rfl
  | cons x xs ih =>
    intro h
    simp [List.takeWhile, h x (List.mem_cons_self x xs),
      ih (fun c hc => h c (List.mem_cons_of_mem x hc))]

/-- Stripping a pattern from a string that starts with it. -/
theorem dropStem_append : ∀ pat rest : List Char, dropStem pat (pat ++ rest) = some rest := by
  intro pat
  induction pat with
  | nil => intro rest; rfl
  | cons a as ih => intro rest; simp [dropStem, ih]

/-- The id regular expression matches a freshly printed id at its front and
parses back the printed number. -/
theorem matchIdAt_front (pat : List Char) (n : Nat) :
    matchIdAt pat (pat ++ natDigits n) = some n := by
  unfold matchIdAt
  rw [dropStem_append]
  have hall : ∀ c ∈ natDigits n, isDigitCh c = true := by
    intro c hc
    exact digitsWF_all_digits n c (natDigits_eq n ▸ hc)
  have hne : natDigits n ≠ [] := natDigits_eq n ▸ digitsWF_ne_nil n
  simp [takeWhile_all isDigitCh (natDigits n) hall, hne, natDigits_parse]

/-- A successful match at the front is the first match. -/
theorem findIdNum_front (pat cs : List Char) {n : Nat} (h : matchIdAt pat cs = some n) :
    findIdNum pat cs = some n := by
  cases cs with
  | nil => simpa [findIdNum] using h
  | cons c cs' => simp [findIdNum, h]

/-- The running maximum never decreases. -/
theorem foldIds_ge_init (t : CatType) : ∀ (items : List JObj) (mx : Nat),
    mx ≤ foldIds t items mx := by
  intro items
  induction items with
  | nil => intro mx; exact Nat.le_refl mx
  | cons x xs ih =>
    intro mx
    have he : foldIds t (x :: xs) mx =
        foldIds t xs (match idNum t x with | some m => max mx m | none => mx) := rfl
    rw [he]
    have h1 : mx ≤ (match idNum t x with | some m => max mx m | none => mx) := by
      cases idNum t x <;> simp
    exact h1.trans (ih _)

/-- The running maximum dominates every parsed id in the collection. -/
theorem foldIds_ge_mem (t : CatType) : ∀ (items : List JObj) (mx : Nat) (it : JObj) (m : Nat),
    it ∈ items → idNum t it = some m → m ≤ foldIds t items mx := by
  intro items
  induction items with
  | nil => intro mx it m hmem; exact absurd hmem (List.not_mem_nil it)
  | cons x xs ih =>
    intro mx it m hmem hid
    have he : foldIds t (x :: xs) mx =
        foldIds t xs (match idNum t x with | some m => max mx m | none => mx) := rfl
    rcases List.mem_cons.mp hmem with rfl | hmem'
    · rw [he, hid]
      calc m ≤ max mx m := Nat.le_max_right mx m
      _ ≤ _ := foldIds_ge_init t xs _
    · rw [he]
      exact ih _ it m hmem' hid

/-- C4 counterexample: within one run — POST, POST, DELETE of the
higher-numbered record, POST — the id `"book-2"` assigned by the second
create and removed by the delete is assigned again by the fourth create, so
identifiers are reused after deletion. -/
theorem generateId_reuse_cex :
    let k : Option String := some "key"
    let s0 : Store := Store.mk [] [] [] []
    let r1 := handleRequest .post k k ["api", "books"]
      [("title", JVal.jstr "T1"), ("author", JVal.jstr "A")] "2024-01-01" s0
    let r2 := handleRequest .post k k ["api", "books"]
      [("title", JVal.jstr "T2"), ("author", JVal.jstr "A")] "2024-01-02" r1.2
    let r3 := handleRequest .delete k k ["api", "books", "book-2"] [] "2024-01-03" r2.2
    let r4 := handleRequest .post k k ["api", "books"]
      [("title", JVal.jstr "T3"), ("author", JVal.jstr "A")] "2024-01-04" r3.2
    r1.1 = 201 ∧ r2.1 = 201 ∧ r3.1 = 200 ∧ r4.1 = 201 ∧
    (r2.2.books.head?.bind idString) = some "book-2" ∧
    (∀ it ∈ r3.2.books, idString it ≠ some "book-2") ∧
    (r4.2.books.head?.bind idString) = some "book-2" := by decide

/-- C4 (amended): the identifier assigned by the store gateway has the form
`{category-stem}-{positive integer}`, and is distinct from the identifier of
every item currently in the collection.  (It can, however, repeat an
identifier that was assigned earlier in the run and deleted since — see the
counterexample.) -/
theorem generateId_spec (t : CatType) (items : List JObj) :
    (∃ n : Nat, 1 ≤ n ∧ generateId t items = catStem t ++ "-" ++ (natDigits n).asString) ∧
    (∀ it ∈ items, idString it ≠ some (generateId t items)) := by
  constructor
  · exact ⟨foldIds t items 0 + 1, by omega, rfl⟩
  · intro it hit hcon
    have hgl : (generateId t items).toList =
        ((catStem t).toList ++ ['-']) ++ natDigits (foldIds t items 0 + 1) := by
      show ((catStem t ++ "-" ++ (natDigits (foldIds t items 0 + 1)).asString)).data =
        ((catStem t).data ++ ['-']) ++ natDigits (foldIds t items 0 + 1)
      rw [String.data_append, String.data_append]
      rfl
    have hnum : idNum t it = some (foldIds t items 0 + 1) := by
      unfold idNum
      rw [hcon]
      show findIdNum ((catStem t).toList ++ ['-']) (generateId t items).toList =
        some (foldIds t items 0 + 1)
      rw [hgl]
      exact findIdNum_front _ _ (matchIdAt_front _ _)
    have h1 := foldIds_ge_mem t items 0 it (foldIds t items 0 + 1) hit hnum
    omega

/-- C5: every POST, PUT or DELETE whose `X-Admin-Key` header is absent or
different from the configured key (the `ADMIN_KEY` environment value, with
the development default when unset) is answered 401 with the stored
collections unchanged; and a GET is handled identically with or without a
key and is never answered 401. -/
theorem auth_gate_spec :
    (∀ (m : Method) (key env : Option String) (path : List String) (body : JObj)
        (today : String) (store : Store),
      (m = .post ∨ m = .put ∨ m = .delete) → key ≠ some (expectedKey env) →
      handleRequest m key env path body today store = (401, store)) ∧
    (∀ (key env : Option String) (path : List String) (body : JObj) (today : String)
        (store : Store),
      handleRequest .get key env path body today store =
        handleRequest .get none env path body today store ∧
      (handleRequest .get key env path body today store).1 ≠ 401) := by
  constructor
  · intro m key env path body today store hm hk
    have hb : (key == some (expectedKey env)) = false := by
      cases hkey : key == some (expectedKey env)
      · rfl
      · exact absurd (eq_of_beq hkey) hk
    rcases hm with rfl | rfl | rfl <;> simp [handleRequest, isAuthenticated, hb]
  · intro key env path body today store
    refine ⟨rfl, ?_⟩
    show (handleRequest .get key env path body today store).1 ≠ 401
    unfold handleRequest
    rw [if_neg (by decide : ¬ (Method.get = Method.options)),
      if_neg (by simp [isAuthenticated] : ¬ (isAuthenticated .get key env = false))]
    split
    next typeStr rest =>
      rcases hpc : parseCat typeStr with _ | t
      · simp [hpc]
      · rcases hh : rest.head? with _ | itemId
        · simp [hpc, hh]
        · rcases hf : (storeGet store t).find? (itemIdMatches itemId) with _ | it <;>
            simp [hpc, hh, hf]
    next => simp

/-- C5 witness: a POST without the key header on an empty store is answered
401 and leaves the store unchanged. -/
theorem auth_gate_spec_witness :
    handleRequest .post none none ["api", "books"] [] "2024-01-01" (Store.mk [] [] [] []) =
      (401, Store.mk [] [] [] []) :=
  auth_gate_spec.1 .post none none ["api", "books"] [] "2024-01-01" (Store.mk [] [] [] [])
    (Or.inl rfl) (by simp)

/-- C3 counterexample: a present rating of `0` coerces to a number outside
the inclusive range `[1, 10]`, yet `validateItem` reports no violation,
because `0` is falsy and the optional-field skip
(`if (!value && !rules.required) continue`) bypasses the range check. -/
theorem validateNumber_zero_cex :
    fieldErrors (numRule 1 10) "rating" (some (JVal.jnum 0)) = [] ∧
    jsToNum (JVal.jnum 0) = some 0 ∧ ((0 : Int) < 1) := by decide

/-- C3 (amended): for a numeric-rule field, `validateItem` reports a
violation exactly when the value is truthy (not `0`, `""`, `false`, `null`
or absent) and either does not coerce to a number or coerces outside the
inclusive `[min, max]` bound; in particular rating 11 fails the range check,
rating 10 passes, and a books record with rating 11 fails validation while
the same record with rating 10 passes. -/
theorem validateNumber_spec :
    (∀ (v : Option JVal) (name : String) (mn mx : Int),
      fieldErrors (numRule mn mx) name v ≠ [] ↔
        (optTruthy v = true ∧
          (v.bind jsToNum = none ∨
            ∃ n : Int, v.bind jsToNum = some n ∧ (n < mn ∨ mx < n)))) ∧
    fieldErrors (numRule 1 10) "rating" (some (JVal.jnum 11)) ≠ [] ∧
    fieldErrors (numRule 1 10) "rating" (some (JVal.jnum 10)) = [] ∧
    (validateItem .books [("title", JVal.jstr "T"), ("author", JVal.jstr "A"),
        ("rating", JVal.jnum 10)]).1 = true ∧
    (validateItem .books [("title", JVal.jstr "T"), ("author", JVal.jstr "A"),
        ("rating", JVal.jnum 11)]).1 = false := by
  refine ⟨?_, by decide, by decide, by decide, by decide⟩
  intro v name mn mx
  by_cases ht : optTruthy v = true
  · cases v with
    | none => simp [optTruthy] at ht
    | some x =>
      cases x with
      | jnull => simp [optTruthy, jvTruthy] at ht
      | jnum n =>
        simp [fieldErrors, numRule, fieldTypeErrors, vrNumber, jsToNum, ht]
        split_ifs with h1 h2 <;> simp <;> omega
      | jstr s =>
        rcases hjs : jsStrToNum s with _ | k
        · simp [fieldErrors, numRule, fieldTypeErrors, vrNumber, jsToNum, hjs, ht]
        · simp [fieldErrors, numRule, fieldTypeErrors, vrNumber, jsToNum, hjs, ht]
          split_ifs with h1 h2 <;> simp <;> omega
      | jbool b =>
        cases b with
        | false => simp [optTruthy, jvTruthy] at ht
        | true =>
          simp [fieldErrors, numRule, fieldTypeErrors, vrNumber, jsToNum, ht]
          split_ifs with h1 h2 <;> simp <;> omega
  · have h0 : optTruthy v = false := by
      revert ht
      cases optTruthy v <;> simp
    simp [fieldErrors, numRule, h0]

/-- C10: `sanitizeUrl` returns the input unchanged exactly when it is a
relative path (leading `/`, `./` or `../`) or parses as an absolute URL with
protocol `http:` or `https:`; on every other input — the empty string, an
unparseable string, or any other protocol such as `javascript:` (case
insensitively) or `data:` — it returns the empty string; and its output is
always the input or the empty string. -/
theorem sanitizeUrl_spec :
    (∀ u : String, u ≠ "" →
      sanitizeUrl (some u) =
        (if isRelPath u = true ∨ isHttpProtocolOk u = true then u else "")) ∧
    (∀ u : Option String, sanitizeUrl u = u.getD "" ∨ sanitizeUrl u = "") ∧
    sanitizeUrl none = "" ∧
    sanitizeUrl (some "javascript:alert(1)") = "" ∧
    sanitizeUrl (some "JaVaScRiPt:alert(1)") = "" ∧
    sanitizeUrl (some "HTTPS://Example.com/x") = "HTTPS://Example.com/x" ∧
    sanitizeUrl (some "/covers/a.jpg") = "/covers/a.jpg" ∧
    sanitizeUrl (some "../covers/a.jpg") = "../covers/a.jpg" ∧
    sanitizeUrl (some "data:text/html,x") = "" := by
  refine ⟨?_, ?_, rfl, by decide, by decide, by decide, by decide, by decide, by decide⟩
  · intro u hu
    simp only [sanitizeUrl, isRelPath, isHttpProtocolOk]
    rw [if_neg hu]
    by_cases h1 : strStartsWith u "/" = true
    · simp [h1]
    · by_cases h2 : strStartsWith u "./" = true
      · simp [h1, h2]
      · by_cases h3 : strStartsWith u "../" = true
        · simp [h1, h2, h3]
        · set w := urlParse u with hw
          clear_value w
          rcases w with _ | prot
          · simp only [← hw]
            simp [h1, h2, h3]
          · simp only [← hw]
            by_cases h5 : prot = "http:" ∨ prot = "https:"
            · rcases h5 with rfl | rfl <;> simp [h1, h2, h3]
            · rw [not_or] at h5
              simp [h1, h2, h3, h5.1, h5.2]
  · intro u
    match u with
    | none => exact Or.inr rfl
    | some s =>
      by_cases h0 : s = ""
      · simp [sanitizeUrl, h0]
      · simp only [sanitizeUrl, Option.getD_some]
        rw [if_neg h0]
        split_ifs with h1 h2 h3
        · exact Or.inl rfl
        · exact Or.inl rfl
        · exact Or.inl rfl
        · set w := urlParse s with hw
          clear_value w
          rcases w with _ | prot
          · exact Or.inr rfl
          · show (if prot = "http:" ∨ prot = "https:" then s else "") = s ∨
              (if prot = "http:" ∨ prot = "https:" then s else "") = ""
            split_ifs with h5
            · exact Or.inl rfl
            · exact Or.inr rfl

/-- C10 witness: an https URL is returned unchanged by the characterization
of `sanitizeUrl_spec`. -/
theorem sanitizeUrl_spec_witness :
    sanitizeUrl (some "https://example.com/a") =
      (if isRelPath "https://example.com/a" = true ∨
          isHttpProtocolOk "https://example.com/a" = true
        then "https://example.com/a" else "") :=
  sanitizeUrl_spec.1 "https://example.com/a" (by decide)
